import Mathlib

/-!
# Verification of the SEAMLeSS displacement-field core

A shallow embedding, in Lean 4, of the displacement-field abstraction
(`utilities/fields.py`), the vector-voting consensus algorithm
(`DisplacementField.vote`), and the chunk-grid crop-flag assignment
(`inference/calc_aligned_img.py`), together with theorems settling the
frozen specification claims.

Conventions of the embedding:
* Tensor values are idealized over exact arithmetic: `ℚ` where the
  source computation is rational (pixel conversions, identity grids,
  bilinear interpolation), `ℝ` where it uses `sqrt`/`exp`
  (magnitudes, the softmin of vector voting).
* A 4-dimensional tensor of shape `(N, C, H, W)` is a record of its
  dimensions together with a total indexing function (indices outside
  the stated dimensions carry junk values that no theorem depends on).
* Python exceptions are modelled with `Except String`.
-/

namespace Seamless

/-! ## `DisplacementField` construction: shape validation

`DisplacementField.__init__` (fields.py lines 115-122) raises
`ValueError` when the wrapped tensor has fewer than 3 dimensions or its
third-from-last dimension is not 2.  `field_` (lines 130-158) performs
the identical checks (after a type check that every raw `torch.Tensor`
passes), and `field` (lines 160-170) clones the tensor and delegates to
`field_`.  The shape of a tensor is embedded as the list of its
dimension sizes. -/

/-- Embedding of `DisplacementField.__init__`: the shape checks run by the
class constructor (fields.py lines 115-122).  Python's `self.shape[-3]`
is index `length - 3` from the front. -/
def initShapeCheck (shape : List ℕ) : Except String Unit :=
  if shape.length < 3 then
    Except.error "The displacement field must have a components dimension."
  else if shape.getD (shape.length - 3) 0 ≠ 2 then
    Except.error "The displacement field must have exactly 2 components."
  else
    Except.ok ()

/-- Embedding of `DisplacementField.field_` (fields.py lines 130-158): the
in-place conversion of a raw tensor repeats the same two shape checks
before reassigning the class.  (Its `isinstance` guard accepts every
`torch.Tensor`, so it is not part of the shape behaviour.) -/
def fieldInPlaceCheck (shape : List ℕ) : Except String Unit :=
  if shape.length < 3 then
    Except.error "The displacement field must have a components dimension."
  else if shape.getD (shape.length - 3) 0 ≠ 2 then
    Except.error "The displacement field must have exactly 2 components."
  else
    Except.ok ()

/-- Embedding of `DisplacementField.field` (fields.py lines 160-170): the
copying conversion clones the tensor (shape unchanged) and delegates to
`field_`. -/
def fieldCheck (shape : List ℕ) : Except String Unit :=
  fieldInPlaceCheck shape

/-! ## Field algebra over exact rationals

A square displacement field of side `s` is a function
`Fin 2 → Fin s → Fin s → ℚ` giving, at channel `c` (0 = x/column,
1 = y/row) and pixel `(row, col)`, the displacement component in the
[-1, 1] edge convention. -/

/-- Square displacement field of side `s`: channel, row, column. -/
def QField (s : ℕ) : Type := Fin 2 → Fin s → Fin s → ℚ

/-- Value of the identity-mapping grid along one axis of size `s` at
0-based index `k`.  `F.affine_grid` with the identity matrix produces
`-1 + 2k/(s-1)` (±1 at the centers of the border pixels); fields.py
line 424 rescales it by `(s-1)/s`, giving `(2k - (s-1))/s` (±1 at the
true image edges). -/
def gridCoord (s k : ℕ) : ℚ :=
  (2 * (k : ℚ) - ((s : ℚ) - 1)) / s

/-- Embedding of `DisplacementField.identity_mapping` (fields.py lines
390-449) as a pure value, the per-pixel absolute coordinate grid.
Channel 0 varies along columns, channel 1 along rows (the grid is
permuted to `(N, 2, H, W)` at line 425).  The default (caching
disabled) call never touches the cache branch, so the value is pure;
the stateful cache behaviour is modelled separately below. -/
def identity_mapping (s : ℕ) : QField s := fun c r col =>
  gridCoord s (if c = (0 : Fin 2) then (col : ℕ) else (r : ℕ))

/-- Embedding of `DisplacementField.mapping` (fields.py lines 713-731):
`self + self.identity_mapping()`. -/
def mapping {s : ℕ} (f : QField s) : QField s := fun c r col =>
  f c r col + identity_mapping s c r col

/-- Embedding of `DisplacementField.from_mapping` (fields.py lines
733-746): `self - self.identity_mapping()`. -/
def from_mapping {s : ℕ} (f : QField s) : QField s := fun c r col =>
  f c r col - identity_mapping s c r col

/-- Embedding of `DisplacementField.pixels` (fields.py lines 666-689):
`self * (size / 2)` with `size` passed explicitly (Python true
division, so `size / 2` is exact here). -/
def pixels {s : ℕ} (f : QField s) (size : ℕ) : QField s := fun c r col =>
  f c r col * ((size : ℚ) / 2)

/-- Embedding of `DisplacementField.from_pixels` (fields.py lines
691-711): `self / (size / 2)`. -/
def from_pixels {s : ℕ} (f : QField s) (size : ℕ) : QField s := fun c r col =>
  f c r col / ((size : ℚ) / 2)

/-! ## 4-dimensional tensors, bilinear interpolation, `sample`, `up`, `down`

`sample` (fields.py lines 815-859) first builds
`self + self.identity_mapping()` — where `identity_mapping` deduces its
parameters through `_get_parameters`, which raises
`ValueError("Bad size ... Expected a square tensor size.")` when the
field itself is non-square (lines 362-366) — then raises
`NotImplementedError` when the *sampled input* is non-square (lines
850-852), rescales the grid by `shape[-2]/(shape[-2]-1)` and calls
`F.grid_sample`.  `up`/`down` (lines 909-935) call `F.interpolate` with
no squareness check of any kind. -/

/-- A dense tensor of shape `(N, C, H, W)`; `data` indexed as
batch, channel, row, column (junk outside the stated bounds). -/
structure Tensor4 where
  N : ℕ
  C : ℕ
  H : ℕ
  W : ℕ
  data : ℕ → ℕ → ℕ → ℕ → ℚ

/-- Clamp an integer index into `[0, n-1]` (nearest-in-bounds pixel). -/
def clampIdx (n : ℕ) (i : ℤ) : ℕ :=
  (min (max i 0) ((n : ℤ) - 1)).toNat

/-- One integer-located tap of a bilinear read from an `H × W` plane:
with `zeroPad` the out-of-bounds value is 0 (`padding_mode="zeros"`),
otherwise the nearest in-bounds pixel is used
(`padding_mode="border"`; also the edge behaviour of
`F.interpolate`). -/
def bilinearTap (get : ℕ → ℕ → ℚ) (H W : ℕ) (zeroPad : Bool) (iy ix : ℤ) : ℚ :=
  if zeroPad then
    if 0 ≤ iy ∧ iy < (H : ℤ) ∧ 0 ≤ ix ∧ ix < (W : ℤ) then
      get iy.toNat ix.toNat
    else 0
  else get (clampIdx H iy) (clampIdx W ix)

/-- Bilinear interpolation of an `H × W` plane at the (fractional)
pixel location `(y, x)`. -/
def bilinear (get : ℕ → ℕ → ℚ) (H W : ℕ) (zeroPad : Bool) (y x : ℚ) : ℚ :=
  let y0 : ℤ := ⌊y⌋
  let x0 : ℤ := ⌊x⌋
  let dy : ℚ := y - y0
  let dx : ℚ := x - x0
  (1 - dy) * (1 - dx) * bilinearTap get H W zeroPad y0 x0
    + (1 - dy) * dx * bilinearTap get H W zeroPad y0 (x0 + 1)
    + dy * (1 - dx) * bilinearTap get H W zeroPad (y0 + 1) x0
    + dy * dx * bilinearTap get H W zeroPad (y0 + 1) (x0 + 1)

/-- `F.interpolate(..., scale_factor=k, mode="bilinear",
align_corners=False)` for an integer magnification `k`: output pixel
`i` reads source location `(i + 1/2)/k - 1/2`. -/
def interpolateUp (t : Tensor4) (k : ℕ) : Tensor4 :=
  { N := t.N, C := t.C, H := t.H * k, W := t.W * k,
    data := fun n c i j =>
      bilinear (t.data n c) t.H t.W false
        (((i : ℚ) + 1/2) / k - 1/2) (((j : ℚ) + 1/2) / k - 1/2) }

/-- `F.interpolate(..., scale_factor=1/k, mode="bilinear",
align_corners=False)` for an integer reduction `k`: output size is
`⌊H/k⌋` and output pixel `i` reads source location
`(i + 1/2)·k - 1/2`. -/
def interpolateDown (t : Tensor4) (k : ℕ) : Tensor4 :=
  { N := t.N, C := t.C, H := t.H / k, W := t.W / k,
    data := fun n c i j =>
      bilinear (t.data n c) t.H t.W false
        (((i : ℚ) + 1/2) * k - 1/2) (((j : ℚ) + 1/2) * k - 1/2) }

/-- Embedding of `DisplacementField.up` (fields.py lines 909-921):
`mips` overrides `scale_factor` as `2^mips`; a factor of 1 returns the
field unmodified; otherwise `F.interpolate` upsamples.  The source body
contains no `raise`, so every path returns `Except.ok`. -/
def up (t : Tensor4) (mips : Option ℕ) (scale_factor : ℕ) :
    Except String Tensor4 :=
  let k := match mips with
    | some m => 2 ^ m
    | none => scale_factor
  if k = 1 then Except.ok t else Except.ok (interpolateUp t k)

/-- Embedding of `DisplacementField.down` (fields.py lines 923-935);
like `up`, the source body contains no `raise`. -/
def down (t : Tensor4) (mips : Option ℕ) (scale_factor : ℕ) :
    Except String Tensor4 :=
  let k := match mips with
    | some m => 2 ^ m
    | none => scale_factor
  if k = 1 then Except.ok t else Except.ok (interpolateDown t k)

/-- The two `padding_mode` options accepted by `sample`. -/
inductive PaddingMode
  | zeros
  | border
deriving DecidableEq

/-- Embedding of `DisplacementField.sample` (fields.py lines 815-859).
The field `f` has shape `(N, 2, H, W)` and the sampled `input` shape
`(N, C, H_in, W_in)`.  Order of effects follows the source: the
identity mapping of `f` is built first (raising the bad-size
`ValueError` from `_get_parameters` when `f` is non-square), then the
input squareness check raises `NotImplementedError`, then the mapping
is rescaled by `shape[-2]/(shape[-2]-1)` and `F.grid_sample`
interpolates (±1 at border-pixel centers, the convention the rescale
corrects for). -/
def sample (f : Tensor4) (input : Tensor4) (padding : PaddingMode) :
    Except String Tensor4 :=
  if f.H ≠ f.W then
    Except.error "Bad size. Expected a square tensor size."
  else if input.W ≠ input.H then
    Except.error "Sampling from non-square tensors not yet implemented here."
  else
    Except.ok
      { N := f.N, C := input.C, H := f.H, W := f.W,
        data := fun n c i j =>
          let s := f.H
          let scale : ℚ := (input.H : ℚ) / ((input.H : ℚ) - 1)
          let gx : ℚ := (f.data n 0 i j + gridCoord s j) * scale
          let gy : ℚ := (f.data n 1 i j + gridCoord s i) * scale
          bilinear (input.data n c) input.H input.W
            (padding = PaddingMode.zeros)
            ((gy + 1) * (((input.H : ℚ) - 1) / 2))
            ((gx + 1) * (((input.W : ℚ) - 1) / 2)) }

/-! ## The identity-mapping cache

`identity_mapping` (fields.py lines 390-449) keeps the process-wide
dict `DisplacementField._identities` keyed by `(size, dtype)`.  Both
the cache-hit read (line 439) and the cache store (line 443) call
`.copy()` on the grid tensor — but `torch.Tensor` has no `copy` method
(only `clone` and the in-place `copy_`), so either call raises
`AttributeError` before anything is stored or returned.  The attribute
error is modelled by `tensorCopy` below. -/

/-- The two floating dtypes `identity_mapping` supports. -/
inductive DType
  | float
  | double
deriving DecidableEq

/-- The unreshaped grid produced by `_create_identity_mapping`
(fields.py lines 421-426), of shape `(1, 2, size, size)`; indexed by
channel, row, column. -/
def createIdentityGrid (s : ℕ) : ℕ → ℕ → ℕ → ℚ := fun c r col =>
  gridCoord s (if c = 0 then col else r)

/-- The process-wide cache `DisplacementField._identities`, an
association list keyed by `(size, dtype)`. -/
def IdCache : Type := List ((ℕ × DType) × (ℕ → ℕ → ℕ → ℚ))

/-- Dict lookup in the identity cache. -/
def lookupCache : IdCache → ℕ × DType → Option (ℕ → ℕ → ℕ → ℚ)
  | [], _ => none
  | (k, v) :: rest, key => if k = key then some v else lookupCache rest key

/-- The message of the `AttributeError` raised by `Id.copy()`. -/
def tensorCopyMsg : String :=
  "AttributeError: Tensor object has no attribute copy"

/-- Embedding of the expression `Id.copy()` (fields.py lines 439 and
443): `torch.Tensor` has no `copy` method, so attribute access raises
`AttributeError` and no value is produced. -/
def tensorCopy (_g : ℕ → ℕ → ℕ → ℚ) :
    Except String (ℕ → ℕ → ℕ → ℚ) :=
  Except.error tensorCopyMsg

/-- Embedding of the cache logic of `DisplacementField.identity_mapping`
(fields.py lines 432-443): on a hit, return `entry.copy()`; on a miss,
create the grid and, when `cache` is set, store `Id.copy()` under
`(size, dtype)` (the store's right-hand side is evaluated first, so an
exception there leaves the cache unchanged); the fresh grid `Id` itself
is returned.  Returns the grid together with the updated cache. -/
def identity_mapping_cached (size : ℕ) (dtype : DType) (cache : Bool)
    (st : IdCache) : Except String ((ℕ → ℕ → ℕ → ℚ) × IdCache) :=
  match lookupCache st (size, dtype) with
  | some g => do
      let c ← tensorCopy g
      Except.ok (c, st)
  | none =>
      let g := createIdentityGrid size
      if cache then do
        let cpy ← tensorCopy g
        Except.ok (g, ((size, dtype), cpy) :: st)
      else
        Except.ok (g, st)

/-! ## Vector voting

`DisplacementField.vote` (fields.py lines 1039-1098) fuses a stack of
`n` displacement fields of shape `(n, 2, H, W)` into one consensus
field.  The stack is embedded as `Fin n → RField P` over an abstract
pixel domain `P`; values are idealized over `ℝ` (the computation uses
`sqrt` and `exp`).  The 4-dimensionality check of the source (line
1058) is enforced by the type of the stack. -/

/-- A single displacement field over pixel domain `P`: channel
(0 = x, 1 = y), then pixel. -/
def RField (P : Type) : Type := Fin 2 → P → ℝ

/-- Embedding of `DisplacementField.magnitude` (fields.py lines
555-567): per-pixel Euclidean norm over the 2-component axis,
`self.pow(2).sum(dim=-3).sqrt()`. -/
noncomputable def magnitude {P : Type} (f : RField P) : P → ℝ := fun p =>
  Real.sqrt (∑ c, f c p ^ 2)

/-- Embedding of `DisplacementField.distance` (fields.py lines
569-582): `(self - other).magnitude()`. -/
noncomputable def distance {P : Type} (f g : RField P) : P → ℝ :=
  magnitude (fun c p => f c p - g c p)

/-- Embedding of the pairwise-distance tensor `dists` of `vote`
(fields.py lines 1072-1076): initialized to zeros, then
`dists[i, j] = dists[j, i] = blurred[i].distance(blurred[j])` for
`j < i`; the diagonal keeps its zero initialization. -/
noncomputable def dists {P : Type} (n : ℕ) (b : Fin n → RField P)
    (i j : Fin n) : P → ℝ :=
  if i = j then fun _ => 0 else distance (b i) (b j)

/-- Embedding of `mtuples = list(combinations(range(n), m))` (fields.py
line 1079): all subsets of size `m` of the `n` field indices. -/
def mtuples (n m : ℕ) : Finset (Finset (Fin n)) :=
  Finset.powersetCard m Finset.univ

/-- Embedding of the per-mtuple mean pairwise distance (fields.py lines
1081-1086): the mean of `dists[i, j]` over the `C(|S|, 2)` pairs
`i < j` drawn from the subset `S`. -/
noncomputable def mtupleAvg {P : Type} {n : ℕ}
    (d : Fin n → Fin n → P → ℝ) (S : Finset (Fin n)) : P → ℝ := fun p =>
  (∑ i ∈ S, ∑ j ∈ S.filter (fun j => i < j), d i j p) / (Nat.choose S.card 2)

/-- Embedding of `mt_weights = (-mavg/softmin_temp).softmax(dim=0)`
(fields.py line 1089): per-pixel softmax over the mtuple axis of the
negated scaled mean distances. -/
noncomputable def mtupleWeight {P : Type} {n : ℕ} (m : ℕ) (temp : ℝ)
    (d : Fin n → Fin n → P → ℝ) (S : Finset (Fin n)) : P → ℝ := fun p =>
  Real.exp (-(mtupleAvg d S p) / temp)
    / ∑ T ∈ mtuples n m, Real.exp (-(mtupleAvg d T p) / temp)

/-- Embedding of the mtuple-to-field weight accumulation (fields.py
lines 1092-1095): `field_weights[j] += mt_weights[i]` for every mtuple
containing `j`. -/
noncomputable def fieldWeight {P : Type} {n : ℕ} (m : ℕ) (temp : ℝ)
    (d : Fin n → Fin n → P → ℝ) (j : Fin n) : P → ℝ := fun p =>
  ∑ S ∈ (mtuples n m).filter (fun S => j ∈ S), mtupleWeight m temp d S p

/-- Embedding of the per-pixel weight normalization (fields.py line
1096): `field_weights / field_weights.sum(dim=0, keepdim=True)`. -/
noncomputable def normWeight {P : Type} {n : ℕ} (m : ℕ) (temp : ℝ)
    (d : Fin n → Fin n → P → ℝ) (j : Fin n) : P → ℝ := fun p =>
  fieldWeight m temp d j p / ∑ k, fieldWeight m temp d k p

/-- The voting computation proper (fields.py lines 1068-1098) for
`n ≥ 3`: with `m = (n+1)//2`, weight the *original* fields by the
normalized per-pixel weights derived from the pairwise distances of the
*blurred* fields, and sum over the stack axis
(`(self * field_weights.unsqueeze(-3)).sum(dim=0, keepdim=True)`, a
single field of shape `(1, 2, H, W)`).

The Gaussian blur itself (`gaussian_blur`, fields.py lines 1027-1037)
delegates to `GaussianSmoothing` in `utilities/helpers.py`, which is
not part of this source tree.  Modelled from the spec: the spec states
only that each field of the ensemble is optionally Gaussian-blurred
before distance computation, so the blur is abstracted as an arbitrary
per-field transformation `blur` (passing `blur = id` recovers
`blur_sigma=None`). -/
noncomputable def voteCore {P : Type} (n : ℕ) (fields : Fin n → RField P)
    (temp : ℝ) (blur : RField P → RField P) : RField P := fun c p =>
  ∑ j, normWeight ((n + 1) / 2) temp (dists n (fun i => blur (fields i))) j p
    * fields j c p

/-- Embedding of `DisplacementField.vote` (fields.py lines 1039-1098):
reject an even ensemble size, short-circuit `n = 1` by returning the
input itself, and otherwise run the voting computation. -/
noncomputable def vote {P : Type} (n : ℕ) (fields : Fin n → RField P)
    (temp : ℝ) (blur : RField P → RField P) : Except String (RField P) :=
  if n % 2 = 0 then
    Except.error
      ("Cannot vetor vote on an even number of displacement fields: "
        ++ toString n)
  else if h : n = 1 then
    Except.ok (fields ⟨0, by omega⟩)
  else
    Except.ok (voteCore n fields temp blur)

open Classical in
/-- Embedding of `DisplacementField.mean_nonzero_vector` (fields.py
lines 601-626) for a batched field of shape `(N, 2, H, W)` over a
finite pixel domain `P`: `total` is the component-wise spatial sum and
`count` the per-batch number of pixels of nonzero displacement
magnitude.  The Python line `if count == 0:` converts the shape-`(N,)`
tensor `count` to a single boolean, which raises
`RuntimeError("Boolean value of Tensor with more than one element is
ambiguous")` whenever `N ≠ 1`.  (The comparison with `0` is a
proposition on reals, hence the classical decidability instance.) -/
noncomputable def mean_nonzero_vector {P : Type} [Fintype P] (N : ℕ)
    (fields : Fin N → RField P) : Except String (Fin N → Fin 2 → ℝ) :=
  let total : Fin N → Fin 2 → ℝ := fun b c => ∑ p, fields b c p
  let count : Fin N → ℕ := fun b =>
    (Finset.univ.filter (fun p => 0 < magnitude (fields b) p)).card
  if h : N = 1 then
    if count ⟨0, by omega⟩ = 0 then Except.ok total
    else Except.ok (fun b c => total b c / count b)
  else
    Except.error "Boolean value of Tensor with more than one element is ambiguous"

/-! ## Chunk-grid crop flags

`inference/calc_aligned_img.py` lines 244-258 assign `head_crop` and
`end_crop` positionally for each index `i` of `chunk_grid`. -/

/-- Embedding of the crop-flag assignment loop body
(calc_aligned_img.py lines 246-258) for a grid of `numChunks` tiles at
tile index `i`; the result is `(head_crop, end_crop)`. -/
def cropFlags (numChunks i : ℕ) : Bool × Bool :=
  if numChunks = 1 then (false, false)
  else if i = 0 then (false, true)
  else if i = numChunks - 1 then (true, false)
  else (true, true)

end Seamless

namespace Seamless

/-- **C1.** Constructing a `DisplacementField` on any construction path
(the class constructor `__init__`, or the `field()`/`field_()`
conversions) raises an invalid-shape error whenever the tensor has fewer
than 3 dimensions or its third-from-last dimension is not exactly 2, and
succeeds otherwise; hence every constructed field has exactly 2
components on the channel axis. -/
theorem construction_validates_shape (shape : List ℕ) :
    ((initShapeCheck shape).isOk
      ↔ 3 ≤ shape.length ∧ shape.getD (shape.length - 3) 0 = 2)
    ∧ fieldInPlaceCheck shape = initShapeCheck shape
    ∧ fieldCheck shape = initShapeCheck shape := by
  refine ⟨?_, rfl, rfl⟩
  unfold initShapeCheck
  by_cases h3 : shape.length < 3
  · rw [if_pos h3]
    constructor
    · intro h
      simp [Except.isOk, Except.toBool] at h
    · rintro ⟨hlen, -⟩
      omega
  · rw [if_neg h3]
    by_cases h2 : shape.getD (shape.length - 3) 0 ≠ 2
    · rw [if_pos h2]
      constructor
      · intro h
        simp [Except.isOk, Except.toBool] at h
      · rintro ⟨-, h⟩
        exact absurd h h2
    · rw [if_neg h2]
      constructor
      · intro _
        exact ⟨by omega, not_not.mp h2⟩
      · intro _
        rfl

/-! ### Helper lemmas for vector voting -/

theorem mtuples_nonempty {n m : ℕ} (hm : m ≤ n) : (mtuples n m).Nonempty := by
  unfold mtuples
  rw [Finset.powersetCard_nonempty]
  simpa using hm

theorem softminDenom_pos {P : Type} {n m : ℕ} (hm : m ≤ n) (temp : ℝ)
    (d : Fin n → Fin n → P → ℝ) (p : P) :
    0 < ∑ T ∈ mtuples n m, Real.exp (-(mtupleAvg d T p) / temp) :=
  Finset.sum_pos (fun T _ => Real.exp_pos _) (mtuples_nonempty hm)

theorem mtupleWeight_pos {P : Type} {n m : ℕ} (hm : m ≤ n) (temp : ℝ)
    (d : Fin n → Fin n → P → ℝ) (S : Finset (Fin n)) (p : P) :
    0 < mtupleWeight m temp d S p := by
  unfold mtupleWeight
  exact div_pos (Real.exp_pos _) (softminDenom_pos hm temp d p)

theorem exists_mtuple_mem {n m : ℕ} (hm1 : 1 ≤ m) (hmn : m ≤ n) (j : Fin n) :
    ∃ S ∈ mtuples n m, j ∈ S := by
  obtain ⟨u, hsub, -, hcard⟩ :=
    Finset.exists_subsuperset_card_eq (Finset.subset_univ {j})
      (by simpa using hm1) (by simpa using hmn)
  refine ⟨u, ?_, hsub (Finset.mem_singleton_self j)⟩
  rw [mtuples, Finset.mem_powersetCard_univ]
  exact hcard

theorem fieldWeight_pos {P : Type} {n m : ℕ} (hm1 : 1 ≤ m) (hmn : m ≤ n)
    (temp : ℝ) (d : Fin n → Fin n → P → ℝ) (j : Fin n) (p : P) :
    0 < fieldWeight m temp d j p := by
  unfold fieldWeight
  refine Finset.sum_pos (fun S _ => mtupleWeight_pos hmn temp d S p) ?_
  obtain ⟨S, hS, hj⟩ := exists_mtuple_mem hm1 hmn j
  exact ⟨S, Finset.mem_filter.mpr ⟨hS, hj⟩⟩

theorem normWeight_sum_one {P : Type} {n m : ℕ} (hn : 1 ≤ n) (hm1 : 1 ≤ m)
    (hmn : m ≤ n) (temp : ℝ) (d : Fin n → Fin n → P → ℝ) (p : P) :
    ∑ j, normWeight m temp d j p = 1 := by
  unfold normWeight
  rw [← Finset.sum_div]
  refine div_self (ne_of_gt ?_)
  refine Finset.sum_pos (fun j _ => fieldWeight_pos hm1 hmn temp d j p) ?_
  exact ⟨⟨0, hn⟩, Finset.mem_univ _⟩

theorem distance_comm {P : Type} (f g : RField P) : distance f g = distance g f := by
  unfold distance magnitude
  funext p
  congr 1
  refine Finset.sum_congr rfl fun c _ => ?_
  show (f c p - g c p) ^ 2 = (g c p - f c p) ^ 2
  ring

theorem dists_symm {P : Type} {n : ℕ} (b : Fin n → RField P) (i j : Fin n) :
    dists n b i j = dists n b j i := by
  unfold dists
  rcases eq_or_ne i j with h | h
  · subst h
    rfl
  · rw [if_neg h, if_neg h.symm]
    exact distance_comm _ _

theorem dists_diag {P : Type} {n : ℕ} (b : Fin n → RField P) (i : Fin n) :
    dists n b i i = fun _ => 0 := by
  unfold dists
  rw [if_pos rfl]

theorem dists_perm {P : Type} {n : ℕ} (b : Fin n → RField P)
    (σ : Equiv.Perm (Fin n)) (i j : Fin n) :
    dists n (fun i => b (σ i)) i j = dists n b (σ i) (σ j) := by
  unfold dists
  rcases eq_or_ne i j with h | h
  · subst h
    rw [if_pos rfl, if_pos rfl]
  · rw [if_neg h, if_neg (fun hc => h (σ.injective hc))]

/-- For a symmetric, zero-diagonal distance function, the sum over the
unordered (`i < j`) pairs of `S` is half the full double sum over
`S × S`. -/
theorem sum_lt_pairs_eq_half {n : ℕ} (S : Finset (Fin n))
    (d : Fin n → Fin n → ℝ) (hsym : ∀ i j, d i j = d j i)
    (hdiag : ∀ i, d i i = 0) :
    ∑ i ∈ S, ∑ j ∈ S.filter (fun j => i < j), d i j
      = (∑ i ∈ S, ∑ j ∈ S, d i j) / 2 := by
  have key : ∀ i ∈ S, ∑ j ∈ S.filter (fun j => ¬ i < j), d i j
      = ∑ j ∈ S.filter (fun j => j < i), d i j := by
    intro i _
    refine (Finset.sum_subset ?_ ?_).symm
    · intro j hj
      rw [Finset.mem_filter] at hj ⊢
      exact ⟨hj.1, lt_asymm hj.2⟩
    · intro j hj hnj
      rw [Finset.mem_filter] at hj
      have hji : ¬ j < i := fun hc => hnj (Finset.mem_filter.mpr ⟨hj.1, hc⟩)
      have hij : i = j := le_antisymm (not_lt.mp hji) (not_lt.mp hj.2)
      rw [← hij, hdiag]
  have swap : (∑ i ∈ S, ∑ j ∈ S, if j < i then d i j else 0)
      = ∑ i ∈ S, ∑ j ∈ S, if i < j then d i j else 0 := by
    rw [Finset.sum_comm]
    refine Finset.sum_congr rfl fun x _ => Finset.sum_congr rfl fun y _ => ?_
    rcases lt_or_le x y with h | h
    · rw [if_pos h, if_pos h]
      exact hsym y x
    · rw [if_neg (not_lt.mpr h), if_neg (not_lt.mpr h)]
  have h1 : ∑ i ∈ S, ∑ j ∈ S, d i j
      = (∑ i ∈ S, ∑ j ∈ S.filter (fun j => i < j), d i j)
        + ∑ i ∈ S, ∑ j ∈ S.filter (fun j => ¬ i < j), d i j := by
    rw [← Finset.sum_add_distrib]
    exact Finset.sum_congr rfl fun i _ =>
      (Finset.sum_filter_add_sum_filter_not S _ _).symm
  have h2 : ∑ i ∈ S, ∑ j ∈ S.filter (fun j => ¬ i < j), d i j
      = ∑ i ∈ S, ∑ j ∈ S.filter (fun j => j < i), d i j :=
    Finset.sum_congr rfl key
  have h3 : ∑ i ∈ S, ∑ j ∈ S.filter (fun j => j < i), d i j
      = ∑ i ∈ S, ∑ j ∈ S.filter (fun j => i < j), d i j := by
    simp only [Finset.sum_filter]
    exact swap
  linarith

/-- Relabelling the pairwise distances by a permutation turns the mean
pairwise distance of a subset into that of its image. -/
theorem mtupleAvg_perm {P : Type} {n : ℕ} (d : Fin n → Fin n → P → ℝ)
    (hsym : ∀ i j, d i j = d j i) (hdiag : ∀ i, d i i = fun _ => 0)
    (σ : Equiv.Perm (Fin n)) (S : Finset (Fin n)) :
    mtupleAvg (fun i j => d (σ i) (σ j)) S = mtupleAvg d (S.image σ) := by
  have hinjS : ∀ x ∈ S, ∀ y ∈ S, σ x = σ y → x = y :=
    fun x _ y _ h => σ.injective h
  funext p
  show (∑ i ∈ S, ∑ j ∈ S.filter (fun j => i < j), d (σ i) (σ j) p)
      / (Nat.choose S.card 2)
    = (∑ i ∈ S.image σ, ∑ j ∈ (S.image σ).filter (fun j => i < j), d i j p)
      / (Nat.choose (S.image σ).card 2)
  rw [Finset.card_image_of_injective S σ.injective]
  congr 1
  calc (∑ i ∈ S, ∑ j ∈ S.filter (fun j => i < j), d (σ i) (σ j) p)
      = (∑ i ∈ S, ∑ j ∈ S, d (σ i) (σ j) p) / 2 :=
        sum_lt_pairs_eq_half S (fun i j => d (σ i) (σ j) p)
          (fun i j => congrFun (hsym (σ i) (σ j)) p)
          (fun i => congrFun (hdiag (σ i)) p)
    _ = (∑ i ∈ S.image σ, ∑ j ∈ S.image σ, d i j p) / 2 := by
        congr 1
        rw [Finset.sum_image hinjS]
        refine Finset.sum_congr rfl fun i _ => ?_
        exact (Finset.sum_image hinjS :
          (∑ x ∈ S.image σ, d (σ i) x p) = ∑ x ∈ S, d (σ i) (σ x) p).symm
    _ = ∑ i ∈ S.image σ, ∑ j ∈ (S.image σ).filter (fun j => i < j), d i j p :=
        (sum_lt_pairs_eq_half (S.image σ) (fun i j => d i j p)
          (fun i j => congrFun (hsym i j) p)
          (fun i => congrFun (hdiag i) p)).symm

/-- The map `S ↦ S.image σ` permutes the size-`m` subsets. -/
theorem mtuples_image_perm {n m : ℕ} (σ : Equiv.Perm (Fin n)) :
    (mtuples n m).image (fun S => S.image σ) = mtuples n m := by
  ext T
  simp only [mtuples, Finset.mem_image, Finset.mem_powersetCard_univ]
  constructor
  · rintro ⟨S, hS, rfl⟩
    rw [Finset.card_image_of_injective S σ.injective]
    exact hS
  · intro hT
    refine ⟨T.image σ.symm, ?_, ?_⟩
    · rw [Finset.card_image_of_injective T σ.symm.injective]
      exact hT
    · rw [Finset.image_image]
      have hco : (σ : Fin n → Fin n) ∘ (σ.symm : Fin n → Fin n) = id := by
        funext x
        simp
      rw [hco, Finset.image_id]

theorem sum_mtuples_perm {n m : ℕ} (σ : Equiv.Perm (Fin n))
    (g : Finset (Fin n) → ℝ) :
    ∑ S ∈ mtuples n m, g (S.image σ) = ∑ S ∈ mtuples n m, g S := by
  have hinj : ∀ x ∈ mtuples n m, ∀ y ∈ mtuples n m,
      x.image σ = y.image σ → x = y := fun x _ y _ h =>
    Finset.image_injective σ.injective h
  conv_rhs => rw [← mtuples_image_perm σ]
  exact (Finset.sum_image hinj).symm

theorem sum_mtuples_filter_perm {n m : ℕ} (σ : Equiv.Perm (Fin n)) (j : Fin n)
    (g : Finset (Fin n) → ℝ) :
    ∑ S ∈ (mtuples n m).filter (fun S => j ∈ S), g (S.image σ)
      = ∑ S ∈ (mtuples n m).filter (fun S => σ j ∈ S), g S := by
  have himg : ((mtuples n m).filter (fun S => j ∈ S)).image
      (fun S => S.image σ) = (mtuples n m).filter (fun S => σ j ∈ S) := by
    ext T
    simp only [Finset.mem_image, Finset.mem_filter, mtuples,
      Finset.mem_powersetCard_univ]
    constructor
    · rintro ⟨S, ⟨hS, hj⟩, rfl⟩
      refine ⟨?_, Finset.mem_image_of_mem σ hj⟩
      rw [Finset.card_image_of_injective S σ.injective]
      exact hS
    · rintro ⟨hT, hj⟩
      refine ⟨T.image σ.symm, ⟨?_, ?_⟩, ?_⟩
      · rw [Finset.card_image_of_injective T σ.symm.injective]
        exact hT
      · have h := Finset.mem_image_of_mem (σ.symm : Fin n → Fin n) hj
        rwa [Equiv.symm_apply_apply] at h
      · rw [Finset.image_image]
        have hco : (σ : Fin n → Fin n) ∘ (σ.symm : Fin n → Fin n) = id := by
          funext x
          simp
        rw [hco, Finset.image_id]
  have hinj : ∀ x ∈ (mtuples n m).filter (fun S => j ∈ S),
      ∀ y ∈ (mtuples n m).filter (fun S => j ∈ S),
      x.image σ = y.image σ → x = y := fun x _ y _ h =>
    Finset.image_injective σ.injective h
  conv_rhs => rw [← himg]
  exact (Finset.sum_image hinj).symm

theorem mtupleWeight_dists_perm {P : Type} {n m : ℕ} (temp : ℝ)
    (b : Fin n → RField P) (σ : Equiv.Perm (Fin n)) (S : Finset (Fin n)) :
    mtupleWeight m temp (dists n (fun i => b (σ i))) S
      = mtupleWeight m temp (dists n b) (S.image σ) := by
  have havg : ∀ T, mtupleAvg (dists n (fun i => b (σ i))) T
      = mtupleAvg (dists n b) (T.image σ) := by
    intro T
    have hd : (dists n (fun i => b (σ i)))
        = fun i j => dists n b (σ i) (σ j) := by
      funext i j
      exact dists_perm b σ i j
    rw [hd]
    exact mtupleAvg_perm (dists n b) (dists_symm b) (dists_diag b) σ T
  funext p
  unfold mtupleWeight
  simp only [havg]
  congr 1
  exact sum_mtuples_perm σ
    (fun T => Real.exp (-(mtupleAvg (dists n b) T p) / temp))

theorem fieldWeight_dists_perm {P : Type} {n m : ℕ} (temp : ℝ)
    (b : Fin n → RField P) (σ : Equiv.Perm (Fin n)) (j : Fin n) :
    fieldWeight m temp (dists n (fun i => b (σ i))) j
      = fieldWeight m temp (dists n b) (σ j) := by
  funext p
  unfold fieldWeight
  simp only [mtupleWeight_dists_perm temp b σ]
  exact sum_mtuples_filter_perm σ j
    (fun S => mtupleWeight m temp (dists n b) S p)

theorem normWeight_dists_perm {P : Type} {n m : ℕ} (temp : ℝ)
    (b : Fin n → RField P) (σ : Equiv.Perm (Fin n)) (j : Fin n) :
    normWeight m temp (dists n (fun i => b (σ i))) j
      = normWeight m temp (dists n b) (σ j) := by
  funext p
  unfold normWeight
  simp only [fieldWeight_dists_perm temp b σ]
  congr 1
  exact Equiv.sum_comp σ (fun k => fieldWeight m temp (dists n b) k p)

/-- **C10.** `vote` is invariant under permutation of the ensemble: for
every stack of fields and every permutation of the stacking axis, the
result (consensus field, `n = 1` bypass, or even-size error alike) is
unchanged.  In particular the order of an odd ensemble does not affect
the consensus. -/
theorem vote_permutation_invariant {P : Type} (n : ℕ)
    (fields : Fin n → RField P) (temp : ℝ) (blur : RField P → RField P)
    (σ : Equiv.Perm (Fin n)) :
    vote n (fun i => fields (σ i)) temp blur = vote n fields temp blur := by
  unfold vote
  by_cases he : n % 2 = 0
  · rw [if_pos he, if_pos he]
  · rw [if_neg he, if_neg he]
    by_cases h1 : n = 1
    · subst h1
      rw [dif_pos rfl, dif_pos rfl]
      exact congrArg (fun k => Except.ok (fields k))
        (Subsingleton.elim (σ ⟨0, by omega⟩) ⟨0, by omega⟩)
    · rw [dif_neg h1, dif_neg h1]
      refine congrArg Except.ok ?_
      funext c p
      unfold voteCore
      have hstep : ∀ j, normWeight ((n + 1) / 2) temp
          (dists n (fun i => blur (fields (σ i)))) j
          = normWeight ((n + 1) / 2) temp
              (dists n (fun i => blur (fields i))) (σ j) :=
        normWeight_dists_perm temp (fun i => blur (fields i)) σ
      calc (∑ j, normWeight ((n + 1) / 2) temp
              (dists n (fun i => blur (fields (σ i)))) j p
              * fields (σ j) c p)
          = ∑ j, normWeight ((n + 1) / 2) temp
              (dists n (fun i => blur (fields i))) (σ j) p
              * fields (σ j) c p :=
            Finset.sum_congr rfl fun j _ => by rw [hstep j]
        _ = ∑ j, normWeight ((n + 1) / 2) temp
              (dists n (fun i => blur (fields i))) j p * fields j c p :=
            Equiv.sum_comp σ (fun k => normWeight ((n + 1) / 2) temp
              (dists n (fun i => blur (fields i))) k p * fields k c p)

/-- **C2.** For every ensemble of `n` stacked displacement fields with
odd `n ≥ 3`, `vote` normalizes the per-field per-pixel weights so that
at every pixel the `n` field weights sum to 1, and returns as consensus
the weighted sum of the original (unblurred) input fields under those
weights — a single field (shape `(1, 2, H, W)`). -/
theorem vote_normalized_weighted_sum {P : Type} (n : ℕ) (hodd : n % 2 = 1)
    (h3 : 3 ≤ n) (fields : Fin n → RField P) (temp : ℝ) (htemp : 0 < temp)
    (blur : RField P → RField P) :
    (∀ p, ∑ j, normWeight ((n + 1) / 2) temp
        (dists n (fun i => blur (fields i))) j p = 1)
    ∧ vote n fields temp blur
        = Except.ok (fun c p =>
            ∑ j, normWeight ((n + 1) / 2) temp
              (dists n (fun i => blur (fields i))) j p * fields j c p) := by
  have hm1 : 1 ≤ (n + 1) / 2 := by omega
  have hmn : (n + 1) / 2 ≤ n := by omega
  refine ⟨fun p => normWeight_sum_one (by omega) hm1 hmn temp _ p, ?_⟩
  unfold vote
  rw [if_neg (by omega), dif_neg (by omega)]
  rfl

/-- Witness for **C2**: the all-zero 3-field ensemble over a one-pixel
domain, `softmin_temp = 1`, identity blur. -/
theorem vote_normalized_weighted_sum_witness :
    (∀ p : Unit, ∑ j : Fin 3, normWeight 2 1
        (dists 3 (fun _ => (fun _ _ => (0 : ℝ)))) j p = 1)
    ∧ vote 3 (fun _ _ _ => (0 : ℝ) : Fin 3 → RField Unit) 1 id
        = Except.ok (fun _ p => ∑ j : Fin 3, normWeight 2 1
            (dists 3 (fun _ => (fun _ _ => (0 : ℝ)))) j p * 0 : RField Unit) :=
  vote_normalized_weighted_sum 3 (by decide) (by decide) (fun _ _ _ => 0) 1
    one_pos id

/-- **C3.** For every 4-dimensional ensemble of `n` stacked fields,
`vote` raises the ensemble-size error if and only if `n` is even, and
for `n = 1` it returns the input field itself unchanged, performing
none of the voting computation. -/
theorem vote_even_error_single_bypass {P : Type} :
    (∀ (n : ℕ) (fields : Fin n → RField P) (temp : ℝ)
        (blur : RField P → RField P),
      (vote n fields temp blur
          = Except.error
              ("Cannot vetor vote on an even number of displacement fields: "
                ++ toString n))
        ↔ n % 2 = 0)
    ∧ ∀ (fields : Fin 1 → RField P) (temp : ℝ) (blur : RField P → RField P),
        vote 1 fields temp blur = Except.ok (fields 0) := by
  constructor
  · intro n fields temp blur
    unfold vote
    by_cases he : n % 2 = 0
    · rw [if_pos he]
      simp [he]
    · rw [if_neg he]
      by_cases h1 : n = 1
      · subst h1
        rw [dif_pos rfl]
        simp [he]
      · rw [dif_neg h1]
        simp [he]
  · intro fields temp blur
    rfl

/-- **C4.** For every displacement field `f` and every odd `n ≥ 1`,
`vote` applied to an ensemble of `n` copies of `f` returns `f`
unchanged (exactly, in exact arithmetic). -/
theorem vote_identical_inputs {P : Type} (n : ℕ) (hodd : n % 2 = 1)
    (f : RField P) (temp : ℝ) (htemp : 0 < temp)
    (blur : RField P → RField P) :
    vote n (fun _ => f) temp blur = Except.ok f := by
  unfold vote
  rw [if_neg (by omega)]
  by_cases h1 : n = 1
  · subst h1
    rfl
  · rw [dif_neg h1]
    congr 1
    funext c p
    unfold voteCore
    show (∑ j, normWeight ((n + 1) / 2) temp
        (dists n (fun _ => blur f)) j p * f c p) = f c p
    rw [← Finset.sum_mul,
      normWeight_sum_one (by omega) (by omega) (by omega) temp _ p, one_mul]

/-- Witness for **C4**: three copies of the zero field over a one-pixel
domain. -/
theorem vote_identical_inputs_witness :
    vote 3 (fun _ => (fun _ _ => (0 : ℝ) : RField Unit)) 1 id
      = Except.ok (fun _ _ => (0 : ℝ)) :=
  vote_identical_inputs 3 (by decide) (fun _ _ => 0) 1 one_pos id

/-- **C8 (evaluation at the failing input).**  On a batched field of
shape `(2, 2, H, W)` — here all-zero, so every per-batch nonzero count
is zero — `mean_nonzero_vector` raises the tensor-truthiness
`RuntimeError` instead of returning the zero vector, because
`if count == 0:` converts the 2-element tensor `count` to a boolean. -/
theorem mean_nonzero_vector_batch_ambiguous :
    mean_nonzero_vector 2 (fun _ _ _ => (0 : ℝ) : Fin 2 → RField Unit)
      = Except.error
          "Boolean value of Tensor with more than one element is ambiguous" :=
  rfl

/-- **C5.** For every square displacement field `f` and every positive
size `s`, the conversions round-trip exactly:
`f.mapping().from_mapping() = f` and `f.pixels(s).from_pixels(s) = f`.
(`size = 0` would make `pixels` multiply by zero irrecoverably, so a
positive pixel count — the size of a tensor to be sampled — is
assumed.) -/
theorem conversion_roundtrip {s : ℕ} (f : QField s) (size : ℕ)
    (hsize : 0 < size) :
    from_mapping (mapping f) = f
    ∧ from_pixels (pixels f size) size = f := by
  constructor
  · funext c r col
    simp [from_mapping, mapping]
  · funext c r col
    have h2 : ((size : ℚ) / 2) ≠ 0 := by
      have : (0 : ℚ) < (size : ℚ) := by exact_mod_cast hsize
      positivity
    simp only [from_pixels, pixels]
    exact mul_div_cancel_right₀ _ h2

/-- Witness for **C5**: the zero field of side 2, size 2. -/
theorem conversion_roundtrip_witness :
    from_mapping (mapping (fun _ _ _ => (0 : ℚ) : QField 2))
        = (fun _ _ _ => (0 : ℚ) : QField 2)
    ∧ from_pixels (pixels (fun _ _ _ => (0 : ℚ) : QField 2) 2) 2
        = (fun _ _ _ => (0 : ℚ) : QField 2) :=
  conversion_roundtrip (fun _ _ _ => 0) 2 (by decide)

/-- **C6 (counterexample to the cached path working at all).**  The
first call with caching enabled crashes on `Id.copy()` — `torch.Tensor`
has no `copy` method — before storing anything, and a (hypothetically
seeded) cache hit crashes on the same missing method, so the computed
grid is never stored under its key and no call is ever served from the
cache. -/
theorem identity_mapping_cache_bug :
    identity_mapping_cached 4 DType.float true [] = Except.error tensorCopyMsg
    ∧ identity_mapping_cached 4 DType.float true
        [((4, DType.float), createIdentityGrid 4)]
        = Except.error tensorCopyMsg :=
  ⟨rfl, rfl⟩

/-- **C7 (amended).**  `sample` fails exactly when a non-square tensor
participates: a non-square field raises the bad-size `ValueError` (from
identity-mapping parameter deduction) and a non-square sampled input
raises `NotImplementedError`; square participants never trigger an
error.  The mip operations `up`/`down`, however, contain no squareness
check and return a result for every input, square or not. -/
theorem sample_square_only_up_down_unchecked (f input : Tensor4)
    (pm : PaddingMode) (mips : Option ℕ) (k : ℕ) :
    ((sample f input pm).isOk ↔ (f.H = f.W ∧ input.H = input.W))
    ∧ (up f mips k).isOk = true
    ∧ (down f mips k).isOk = true := by
  refine ⟨?_, ?_, ?_⟩
  · unfold sample
    by_cases h1 : f.H ≠ f.W
    · rw [if_pos h1]
      constructor
      · intro h
        simp [Except.isOk, Except.toBool] at h
      · rintro ⟨h, -⟩
        exact absurd h h1
    · rw [if_neg h1]
      by_cases h2 : input.W ≠ input.H
      · rw [if_pos h2]
        constructor
        · intro h
          simp [Except.isOk, Except.toBool] at h
        · rintro ⟨-, h⟩
          exact absurd h.symm h2
      · rw [if_neg h2]
        constructor
        · intro _
          exact ⟨not_not.mp h1, (not_not.mp h2).symm⟩
        · intro _
          rfl
  · unfold up
    by_cases hk : (match mips with | some m => 2 ^ m | none => k) = 1 <;>
      simp [hk, Except.isOk, Except.toBool]
  · unfold down
    by_cases hk : (match mips with | some m => 2 ^ m | none => k) = 1 <;>
      simp [hk, Except.isOk, Except.toBool]

/-- **C7 (counterexample to the claim as stated).**  `up` on a
non-square `(1, 2, 2, 4)` field with scale factor 2 raises nothing and
returns a result, contradicting the claim that the mip operations raise
a "not implemented" condition on non-square participants. -/
theorem up_nonsquare_returns_result :
    (up (Tensor4.mk 1 2 2 4 (fun _ _ _ _ => 0)) none 2).isOk = true :=
  rfl

/-- **C9.** For every chunk grid, the tile crop flags are assigned
positionally: `head_crop` is true for every tile except the first,
`end_crop` is true for every tile except the last, and a single-tile
grid has both false. -/
theorem cropFlags_positional (numChunks i : ℕ) (hi : i < numChunks) :
    cropFlags numChunks i = (decide (i ≠ 0), decide (i ≠ numChunks - 1)) := by
  unfold cropFlags
  by_cases h1 : numChunks = 1
  · subst h1
    have h0 : i = 0 := by omega
    subst h0
    simp
  · by_cases h0 : i = 0
    · subst h0
      have hne : (0 : ℕ) ≠ numChunks - 1 := by omega
      simp [h1, hne]
    · by_cases hl : i = numChunks - 1
      · have hm : numChunks - 1 ≠ 0 := by omega
        simp [h1, h0, hl, hm]
      · simp [h1, h0, hl]

/-- Witness for **C9** at a concrete input: a 3-tile grid, middle tile. -/
theorem cropFlags_positional_witness :
    cropFlags 3 1 = (decide ((1:ℕ) ≠ 0), decide ((1:ℕ) ≠ 3 - 1)) :=
  cropFlags_positional 3 1 (by decide)

end Seamless
